import Mathlib

/-
Formal model of `src/UOCFlix/src/user.c`: the user table (add / remove /
find / equality / copy), name normalization (`user_trimCapitalizeName`)
and the favorites aggregation query (`user_getFavoriteGenre`).

Modelling conventions:
* C strings are Lean `String`s (their character content up to the NUL
  terminator); `strcmp(a, b) == 0` becomes string equality.
* Dynamic arrays are Lean `List`s; a NULL `elements` pointer is the empty
  list.  The `size` field is kept separate from the list, exactly as in C,
  because the memory-error paths of the source desynchronize the two.
* `malloc` / `realloc` outcomes are explicit `Bool` parameters (`true` =
  the allocation succeeded).  A failed allocation inside `user_init`
  leaves the target fields as uninitialized memory; this indeterminate
  content is rendered by the fixed value `junkUser`, whose particular
  value no theorem relies on for a claim about initialized data.
* `int` is `Int` where signedness matters (the occurrence counters of
  `user_getFavoriteGenre` and its uninitialized `maxOcurrences`, which is
  passed in as the explicit parameter `maxOcc0`).
-/

/-- Error codes of `user.h` (`OK`, `ERR_MEMORY_ERROR`, `ERR_DUPLICATED`,
`ERR_NOT_FOUND`), the closed set used by every fallible operation. -/
inductive tError where
  | OK
  | ERR_MEMORY_ERROR
  | ERR_DUPLICATED
  | ERR_NOT_FOUND
deriving DecidableEq, Repr

/-- Modelled from the spec: the genre enumeration of the external
`series`/`genre` collaborator is not part of `src/`; only the fact that it
indexes the 8-entry `genreOcurrences` array matters, so genres are
naturals with valid values `0..7`. -/
abbrev tGenre := Nat

/-- Modelled from the spec: the "no favorites" sentinel, a value distinct
from the 8 real genre indices. -/
def GENRE_NOT_FOUND : tGenre := 8

/-- Modelled from the spec: a concrete genre index for Action (the exact
numbering of the external enum is immaterial to every claim, only that
Action and Drama are distinct valid indices). -/
def GENRE_ACTION : tGenre := 0

/-- Modelled from the spec: a concrete genre index for Drama. -/
def GENRE_DRAMA : tGenre := 2

/-- Modelled from the spec: the read path `film.series->genre` is the only
part of the external series type the core exercises. -/
structure tSeries where
  genre : tGenre
deriving DecidableEq, Repr

/-- Modelled from the spec: a film referencing its series. -/
structure tFilm where
  series : tSeries
deriving DecidableEq, Repr

/-- Modelled from the spec: a favorite wraps a film (external
`favorite.h`). -/
structure tFavorite where
  film : tFilm
deriving DecidableEq, Repr

/-- A user record: three owned strings plus the owned favorites stack
(`tFavoriteStack` is modelled as a list whose head is the top of the
stack, so list order is stack-pop order). -/
structure tUser where
  username : String
  name : String
  mail : String
  favorites : List tFavorite
deriving DecidableEq, Repr

/-- Indeterminate memory contents: the value of a user object whose field
allocations failed (left malloc'd but never written), or of an
out-of-bounds array slot.  Reading it in C is undefined behavior; the
concrete value chosen here is arbitrary. -/
def junkUser : tUser := { username := "", name := "", mail := "", favorites := [] }

/-- `user_init` (user.c lines 10-43): allocates the three string fields
and copies the arguments into them, then creates an empty favorites
stack.  `allocOk` models whether all three `malloc` calls succeeded; on
failure the function returns `ERR_MEMORY_ERROR` before any `strcpy`, so
the object holds indeterminate data. -/
def user_init (username name mail : String) (allocOk : Bool) : tError × tUser :=
  if allocOk then
    (tError.OK, { username := username, name := name, mail := mail, favorites := [] })
  else
    (tError.ERR_MEMORY_ERROR, junkUser)

/-- `user_equals` (user.c lines 74-101): field-wise string comparison of
`username`, `name` and `mail`; the favorites stacks are not compared. -/
def user_equals (user1 user2 : tUser) : Bool :=
  user1.username == user2.username && user1.name == user2.name && user1.mail == user2.mail

/-- `user_cpy` (user.c lines 128-141): frees `dst`, re-initializes it from
`src`'s three strings (the favorites of `dst` become a fresh empty stack),
and returns `OK` — the return code of the inner `user_init` is discarded,
so `OK` is returned even when `allocOk` is `false`. -/
def user_cpy (dst src : tUser) (allocOk : Bool) : tError × tUser :=
  (tError.OK, (user_init src.username src.name src.mail allocOk).2)

/-- The value an element holds after a successful `user_cpy` from `u`:
the three strings of `u` and an empty favorites stack. -/
def strCpyUser (u : tUser) : tUser :=
  { username := u.username, name := u.name, mail := u.mail, favorites := [] }

/-- The table of users: an element count and the backing array
(`elements`), kept as two separate fields exactly as in the C struct. -/
structure tUserTable where
  size : Nat
  elements : List tUser
deriving DecidableEq, Repr

/-- `userTable_init` (user.c lines 144-156): the empty table, size `0` and
a NULL elements pointer. -/
def userTable_init : tUserTable := { size := 0, elements := [] }

/-- `userTable_find` (user.c lines 292-309): linear scan of the first
`size` slots, returning the first element whose username matches, or the
NULL pointer (`none`). -/
def userTable_find (table : tUserTable) (username : String) : Option tUser :=
  (table.elements.take table.size).find? (fun u => u.username == username)

/-- `userTable_size` (user.c lines 312-318). -/
def userTable_size (table : tUserTable) : Nat := table.size

/-- `userTable_equals` (user.c lines 105-125): `false` if the sizes
differ, otherwise scans `userTable2`'s elements (loop bound
`userTable1->size`, as in the source) requiring each username to be found
in `userTable1`.  Only usernames are consulted. -/
def userTable_equals (userTable1 userTable2 : tUserTable) : Bool :=
  if userTable1.size ≠ userTable2.size then false
  else (userTable2.elements.take userTable1.size).all
    (fun u => (userTable_find userTable1 u.username).isSome)

/-- `userTable_add` (user.c lines 176-228): returns `ERR_DUPLICATED` if
the username is already present; otherwise increments `size` and then
grows the backing block (`malloc` for the first element, `realloc`
afterwards — both leave the old contents in the first `size` slots).  If
the growth fails the function returns `ERR_MEMORY_ERROR` with `size`
already incremented and `elements` overwritten with NULL.  On success the
new slot is initialized with `user_init`, whose return code the source
discards. -/
def userTable_add (table : tUserTable) (user : tUser) (growOk initOk : Bool) :
    tError × tUserTable :=
  if (userTable_find table user.username).isSome then
    (tError.ERR_DUPLICATED, table)
  else if growOk then
    (tError.OK,
      { size := table.size + 1,
        elements := table.elements.take table.size ++
          [(user_init user.username user.name user.mail initOk).2] })
  else
    (tError.ERR_MEMORY_ERROR, { size := table.size + 1, elements := [] })

/-- The element-shifting loop of `userTable_remove` (user.c lines
241-259): iterates `i` over the first `n` slots; before the username
matches it only scans, afterwards it copies slot `i` onto slot `i - 1`
with `user_cpy`, aborting with `ERR_MEMORY_ERROR` if `user_cpy` reports
one.  `cpyOk i` models the success of the allocations inside the
`user_cpy` call of iteration `i`.  Returns the abort code (if any), the
`found` flag and the array contents after the loop. -/
def removeLoop (target : String) (cpyOk : Nat → Bool) (n : Nat) (arr : List tUser)
    (i : Nat) (found : Bool) : Option tError × Bool × List tUser :=
  if h : i < n then
    if found then
      if (user_cpy (arr.getD (i - 1) junkUser) (arr.getD i junkUser) (cpyOk i)).1 =
          tError.ERR_MEMORY_ERROR then
        (some tError.ERR_MEMORY_ERROR, found, arr)
      else
        removeLoop target cpyOk n
          (arr.set (i - 1) (user_cpy (arr.getD (i - 1) junkUser) (arr.getD i junkUser)
            (cpyOk i)).2) (i + 1) found
    else if (arr.getD i junkUser).username = target then
      removeLoop target cpyOk n arr (i + 1) true
    else
      removeLoop target cpyOk n arr (i + 1) false
  else
    (none, found, arr)
termination_by n - i
decreasing_by all_goals omega

/-- `userTable_remove` (user.c lines 231-289): runs the shifting loop; if
the username was never found returns `ERR_NOT_FOUND` with the table
untouched.  Otherwise decrements `size`; a table emptied this way releases
its block (`elements` becomes NULL), and a non-empty one is shrunk with
`realloc` (`shrinkOk` models its success — on failure `elements` is
overwritten with NULL and `ERR_MEMORY_ERROR` is returned, `size` already
decremented). -/
def userTable_remove (table : tUserTable) (user : tUser) (cpyOk : Nat → Bool)
    (shrinkOk : Bool) : tError × tUserTable :=
  if (removeLoop user.username cpyOk table.size table.elements 0 false).1.isSome then
    (tError.ERR_MEMORY_ERROR,
      { size := table.size,
        elements := (removeLoop user.username cpyOk table.size table.elements 0 false).2.2 })
  else if (removeLoop user.username cpyOk table.size table.elements 0 false).2.1 then
    if table.size - 1 = 0 then
      (tError.OK, { size := 0, elements := [] })
    else if shrinkOk then
      (tError.OK,
        { size := table.size - 1,
          elements := (removeLoop user.username cpyOk table.size table.elements
            0 false).2.2.take (table.size - 1) })
    else
      (tError.ERR_MEMORY_ERROR, { size := table.size - 1, elements := [] })
  else
    (tError.ERR_NOT_FOUND,
      { size := table.size,
        elements := (removeLoop user.username cpyOk table.size table.elements 0 false).2.2 })

/-- Modelled from the spec: `favoriteStack_duplicate` of the external
stack collaborator produces a copy of the stack; as a value it is the
same sequence of entries. -/
def favoriteStack_duplicate (stack : List tFavorite) : List tFavorite := stack

/-- The counting loop of `user_getFavoriteGenre` (user.c lines 417-421):
drains the duplicated stack, recording the genre of each popped entry in
the occurrence table and leaving `tmpGenre` at the genre of the last
entry popped.  The occurrence table is a function from genre index to
`int` count. -/
def favGenreLoop : List tFavorite → (Nat → Int) → tGenre → (Nat → Int) × tGenre
  | [], counts, tmpGenre => (counts, tmpGenre)
  | f :: rest, counts, _ =>
    favGenreLoop rest
      (fun j => if j = f.film.series.genre then counts j + 1 else counts j)
      f.film.series.genre

/-- The body of the maximum-scan loop of `user_getFavoriteGenre` (user.c
lines 423-428): a strictly-greater-than comparison against the current
maximum. -/
def favMaxStep (counts : Nat → Int) (st : tGenre × Int) (i : Nat) : tGenre × Int :=
  if counts i > st.2 then (i, counts i) else st

/-- The maximum-scan loop of `user_getFavoriteGenre`: `for (i = 0; i < 8;
i++)` over the occurrence table, starting from the current `tmpGenre` and
the (uninitialized) `maxOcurrences` value `m0`. -/
def favMaxLoop (counts : Nat → Int) (g0 : tGenre) (m0 : Int) : tGenre :=
  ((List.range 8).foldl (favMaxStep counts) (g0, m0)).1

/-- `user_getFavoriteGenre` (user.c lines 406-431): duplicates the
favorites stack, counts genre occurrences while draining the duplicate,
then scans the 8 counters with a strict `>` against `maxOcurrences` —
which the source never initializes; its indeterminate initial value is
the explicit parameter `maxOcc0`. -/
def user_getFavoriteGenre (object : tUser) (maxOcc0 : Int) : tGenre :=
  let tmp := favoriteStack_duplicate object.favorites
  let r := favGenreLoop tmp (fun _ => 0) GENRE_NOT_FOUND
  favMaxLoop r.1 r.2 maxOcc0

/-- Spec-side occurrence count: how many favorites carry genre `g`. -/
def countOcc (favorites : List tFavorite) (g : tGenre) : Nat :=
  (favorites.filter (fun f => f.film.series.genre == g)).length

/-- `isblank` of ctype.h: space or horizontal tab. -/
def isblank (c : Char) : Bool := c = ' ' || c = '\t'

/-- The backwards scan of `user_trimCapitalizeName` (user.c lines
345-351): starting from the last index, steps left while the character is
blank.  (On an all-blank string the C scan underflows below the string —
undefined behavior excluded by the precondition; the model stops at 0.) -/
def scanBackIdx (name : List Char) : Nat → Nat
  | 0 => 0
  | e + 1 => if isblank (name.getD (e + 1) ' ') then scanBackIdx name e else e + 1

/-- The capitalization loop of `user_trimCapitalizeName` (user.c lines
379-398): a `startOfWord` flag is set by blanks; the first character of
each word is upper-cased, the others lower-cased, blanks kept. -/
def capLoop : List Char → Bool → List Char
  | [], _ => []
  | c :: rest, startOfWord =>
    if isblank c then c :: capLoop rest true
    else if startOfWord then c.toUpper :: capLoop rest false
    else c.toLower :: capLoop rest false

/-- `user_trimCapitalizeName` (user.c lines 325-401): finds the first and
last non-blank positions, allocates the trimmed copy (`allocOk` models the
`malloc`; on failure `ERR_MEMORY_ERROR` is returned with the name
untouched), then re-cases it word by word. -/
def user_trimCapitalizeName (object : tUser) (allocOk : Bool) : tError × tUser :=
  let chars := object.name.data
  let nameStart := (chars.takeWhile isblank).length
  let nameEnd := scanBackIdx chars (chars.length - 1)
  if allocOk then
    (tError.OK, { object with
      name := String.mk (capLoop ((chars.drop nameStart).take (nameEnd + 1 - nameStart)) true) })
  else
    (tError.ERR_MEMORY_ERROR, object)

/-- Spec-side trim: strip leading and trailing blank characters. -/
def trimBlanks (s : List Char) : List Char :=
  ((s.dropWhile isblank).reverse.dropWhile isblank).reverse

/-- Spec-side word-start test: a character starts a token when nothing or
a blank precedes it; the argument is the preceding character, if any. -/
def wordStart : Option Char → Bool
  | none => true
  | some p => isblank p

/-- Spec-side re-casing, following the spec's words: every blank-delimited
token gets its first letter upper-cased and the remainder lower-cased,
blanks are preserved in place.  `prev` is the preceding character, if
any. -/
def specRecase (prev : Option Char) (l : List Char) : List Char :=
  match l with
  | [] => []
  | c :: rest =>
    if isblank c then c :: specRecase (some c) rest
    else if wordStart prev then c.toUpper :: specRecase (some c) rest
    else c.toLower :: specRecase (some c) rest

/-- Spec-side normalization: trim both edges, then re-case each token. -/
def specTrimCapitalize (s : List Char) : List Char :=
  specRecase none (trimBlanks s)

/-- The identity of a table element as far as the string fields go:
username, name and mail. -/
def userStrings (u : tUser) : String × String × String := (u.username, u.name, u.mail)

/-- Tables reachable from `userTable_init` by `userTable_add` and
`userTable_remove` calls in which every allocation succeeds.  (After a
failed allocation the table is corrupt — `size` out of step with the
freed or NULL block, see the theorem for C1 — and any further operation
is undefined behavior in the source, so the invariant claim is about the
allocation-successful executions.) -/
inductive Reachable : tUserTable → Prop
  | init : Reachable userTable_init
  | add (t : tUserTable) (u : tUser) : Reachable t →
      Reachable (userTable_add t u true true).2
  | remove (t : tUserTable) (u : tUser) : Reachable t →
      Reachable (userTable_remove t u (fun _ => true) true).2

/-- A concrete user for witnesses. -/
def uAlice : tUser := { username := "alice", name := "Alice", mail := "a@x", favorites := [] }

/-- A concrete user for witnesses. -/
def uBob : tUser := { username := "bob", name := "Bob", mail := "b@x", favorites := [] }

/-- A concrete user for witnesses. -/
def uCarol : tUser := { username := "carol", name := "Carol", mail := "c@x", favorites := [] }

/-- A concrete one-element table for witnesses. -/
def tblA : tUserTable := { size := 1, elements := [uAlice] }

/-- A concrete three-element table for witnesses. -/
def tblABC : tUserTable := { size := 3, elements := [uAlice, uBob, uCarol] }

/-- A concrete user sharing `uAlice`'s username with different name and
mail. -/
def uAlice2 : tUser :=
  { username := "alice", name := "Alicia", mail := "a2@x", favorites := [] }

/-- A concrete user sharing `uBob`'s username with different name and
mail. -/
def uBob2 : tUser :=
  { username := "bob", name := "Roberto", mail := "b2@x", favorites := [] }

/-- A concrete two-element table for witnesses. -/
def tblAB : tUserTable := { size := 2, elements := [uAlice, uBob] }

/-- A concrete two-element table with the same usernames as `tblAB` in the
opposite order and with different names and mails. -/
def tblBA2 : tUserTable := { size := 2, elements := [uBob2, uAlice2] }

/-- A concrete user whose display name needs normalization. -/
def uJohnDoe : tUser :=
  { username := "jd", name := "  john   DOE ", mail := "j@x", favorites := [] }

/-- A favorite entry of the given genre. -/
def favOf (g : tGenre) : tFavorite := { film := { series := { genre := g } } }

/-- A user with no favorites. -/
def uNoFavs : tUser := { username := "u", name := "n", mail := "m", favorites := [] }

/-- A user whose favorites were pushed in order Drama, Action, Action, so
that the stack-pop order is Action, Action, Drama. -/
def uDramaActionAction : tUser :=
  { username := "u", name := "n", mail := "m",
    favorites := [favOf GENRE_ACTION, favOf GENRE_ACTION, favOf GENRE_DRAMA] }

/-- A user whose favorites tie one-to-one between genres 3 and 1, with
genre 3 first in stack-pop order. -/
def uTie : tUser :=
  { username := "u", name := "n", mail := "m", favorites := [favOf 3, favOf 1] }

/-- The first component of `user_cpy` is always `OK`: the source discards
the return code of the inner `user_init`. -/
theorem user_cpy_fst (dst src : tUser) (allocOk : Bool) :
    (user_cpy dst src allocOk).1 = tError.OK := rfl

/-- With its allocation succeeding, `user_cpy` writes the three strings
of `src` and an empty favorites stack. -/
theorem user_cpy_snd_true (dst src : tUser) :
    (user_cpy dst src true).2 = strCpyUser src := rfl

/-- The shifting loop never aborts: its `ERR_MEMORY_ERROR` branch tests
the return code of `user_cpy`, which is always `OK`. -/
theorem removeLoop_fst_none (target : String) (cpyOk : Nat → Bool) (n : Nat)
    (arr : List tUser) (i : Nat) (found : Bool) :
    (removeLoop target cpyOk n arr i found).1 = none := by
  induction arr, i, found using removeLoop.induct target cpyOk n with
  | case1 arr i h herr =>
    exact absurd (user_cpy_fst _ _ _ ▸ herr) (by simp)
  | case2 arr i h herr ih =>
    rw [removeLoop]
    simp only [dif_pos h, if_pos rfl, if_neg herr]
    exact ih
  | case3 arr i found h hf hm ih =>
    rw [removeLoop]
    simp only [dif_pos h, Bool.not_eq_true] at *
    simp only [hf, Bool.false_eq_true, if_false, if_pos hm]
    exact ih
  | case4 arr i found h hf hm ih =>
    rw [removeLoop]
    simp only [dif_pos h, Bool.not_eq_true] at *
    simp only [hf, Bool.false_eq_true, if_false, if_neg hm]
    exact ih
  | case5 arr i found h =>
    rw [removeLoop, dif_neg h]

/-- The shifting loop preserves the length of the array. -/
theorem removeLoop_length (target : String) (cpyOk : Nat → Bool) (n : Nat)
    (arr : List tUser) (i : Nat) (found : Bool) :
    (removeLoop target cpyOk n arr i found).2.2.length = arr.length := by
  induction arr, i, found using removeLoop.induct target cpyOk n with
  | case1 arr i h herr =>
    exact absurd (user_cpy_fst _ _ _ ▸ herr) (by simp)
  | case2 arr i h herr ih =>
    rw [removeLoop]
    simp only [dif_pos h, if_pos rfl, if_neg herr, eq_self_iff_true, if_true]
    rw [ih, List.length_set]
  | case3 arr i found h hf hm ih =>
    rw [removeLoop]
    simp only [Bool.not_eq_true] at hf
    simp only [dif_pos h, hf, Bool.false_eq_true, if_false, if_pos hm]
    exact ih
  | case4 arr i found h hf hm ih =>
    rw [removeLoop]
    simp only [Bool.not_eq_true] at hf
    simp only [dif_pos h, hf, Bool.false_eq_true, if_false, if_neg hm]
    exact ih
  | case5 arr i found h =>
    rw [removeLoop, dif_neg h]

/-- If no slot in the scanned range matches the target username, the loop
leaves the array untouched and reports `found = false`. -/
theorem removeLoop_no_match (target : String) (cpyOk : Nat → Bool) (n : Nat)
    (arr : List tUser) (i : Nat) (found : Bool) :
    found = false → (∀ j, i ≤ j → j < n → (arr.getD j junkUser).username ≠ target) →
    removeLoop target cpyOk n arr i found = (none, false, arr) := by
  induction arr, i, found using removeLoop.induct target cpyOk n with
  | case1 arr i h herr =>
    intro hfound _
    exact absurd hfound (by simp)
  | case2 arr i h herr ih =>
    intro hfound _
    exact absurd hfound (by simp)
  | case3 arr i found h hf hm ih =>
    intro _ hnone
    exact absurd hm (hnone i le_rfl h)
  | case4 arr i found h hf hm ih =>
    intro _ hnone
    rw [removeLoop]
    simp only [Bool.not_eq_true] at hf
    simp only [dif_pos h, hf, Bool.false_eq_true, if_false, if_neg hm]
    exact ih rfl (fun j hij hjn => hnone j (by omega) hjn)
  | case5 arr i found h =>
    intro hfound _
    rw [removeLoop, dif_neg h, hfound]

/-- Up to the first matching slot `k`, the loop only scans: entering at
`i ≤ k` with the flag clear is the same as entering at `k + 1` with the
flag set. -/
theorem removeLoop_to_first_match (target : String) (cpyOk : Nat → Bool) (n : Nat)
    (k : Nat) (hk : k < n) :
    ∀ (arr : List tUser) (i : Nat) (found : Bool), found = false → i ≤ k →
    (arr.getD k junkUser).username = target →
    (∀ j, i ≤ j → j < k → (arr.getD j junkUser).username ≠ target) →
    removeLoop target cpyOk n arr i found = removeLoop target cpyOk n arr (k + 1) true := by
  intro arr i found
  induction arr, i, found using removeLoop.induct target cpyOk n with
  | case1 arr i h herr =>
    intro hfound _ _ _
    exact absurd hfound (by simp)
  | case2 arr i h herr ih =>
    intro hfound _ _ _
    exact absurd hfound (by simp)
  | case3 arr i found h hf hm ih =>
    intro _ hik hkmatch hbefore
    have hik' : i = k := by
      by_contra hne
      exact hbefore i le_rfl (by omega) hm
    subst hik'
    rw [removeLoop]
    simp only [Bool.not_eq_true] at hf
    simp only [dif_pos h, hf, Bool.false_eq_true, if_false, if_pos hm]
  | case4 arr i found h hf hm ih =>
    intro _ hik hkmatch hbefore
    have hik' : i ≠ k := fun he => hm (he ▸ hkmatch)
    rw [removeLoop]
    simp only [Bool.not_eq_true] at hf
    simp only [dif_pos h, hf, Bool.false_eq_true, if_false, if_neg hm]
    exact ih rfl (by omega) hkmatch (fun j hij hjk => hbefore j (by omega) hjk)
  | case5 arr i found h =>
    intro _ hik _ _
    exact absurd hk (by omega)

/-- Auxiliary: `getD` after `set` at the written index. -/
theorem getD_set_self (l : List tUser) (i : Nat) (a : tUser) (h : i < l.length) :
    (l.set i a).getD i junkUser = a := by
  simp [List.getD_eq_getElem?_getD, List.getElem?_set_self h]

/-- Auxiliary: `getD` after `set` at a different index. -/
theorem getD_set_ne (l : List tUser) (i j : Nat) (a : tUser) (h : i ≠ j) :
    (l.set i a).getD j junkUser = l.getD j junkUser := by
  simp [List.getD_eq_getElem?_getD, List.getElem?_set_ne h]

/-- Once the flag is set it stays set. -/
theorem removeLoop_flag_true (target : String) (cpyOk : Nat → Bool) (n : Nat) :
    ∀ (arr : List tUser) (i : Nat) (found : Bool), found = true →
    (removeLoop target cpyOk n arr i found).2.1 = true := by
  intro arr i found
  induction arr, i, found using removeLoop.induct target cpyOk n with
  | case1 arr i h herr =>
    exact absurd (user_cpy_fst _ _ _ ▸ herr) (by simp)
  | case2 arr i h herr ih =>
    intro _
    rw [removeLoop]
    simp only [dif_pos h, if_pos rfl, if_neg herr, eq_self_iff_true, if_true]
    exact ih rfl
  | case3 arr i found h hf hm ih =>
    intro hfound
    exact absurd hfound hf
  | case4 arr i found h hf hm ih =>
    intro hfound
    exact absurd hfound hf
  | case5 arr i found h =>
    intro hfound
    rw [removeLoop, dif_neg h, hfound]

/-- The found-phase of the shifting loop, with every `user_cpy`
allocation succeeding: each slot from `i - 1` up to `n - 2` receives the
string-copy of its right neighbour, slots below `i - 1` and from `n - 1`
on keep their old contents. -/
theorem removeLoop_shift (target : String) (cpyOk : Nat → Bool) (n : Nat)
    (hc : ∀ j, cpyOk j = true) :
    ∀ (arr : List tUser) (i : Nat) (found : Bool), found = true → 1 ≤ i →
    n ≤ arr.length → ∀ m,
    (removeLoop target cpyOk n arr i found).2.2.getD m junkUser =
      if i - 1 ≤ m ∧ m + 1 < n then strCpyUser (arr.getD (m + 1) junkUser)
      else arr.getD m junkUser := by
  intro arr i found
  induction arr, i, found using removeLoop.induct target cpyOk n with
  | case1 arr i h herr =>
    exact absurd (user_cpy_fst _ _ _ ▸ herr) (by simp)
  | case2 arr i h herr ih =>
    intro _ hi hlen m
    rw [removeLoop]
    simp only [dif_pos h, if_pos rfl, if_neg herr, eq_self_iff_true, if_true]
    rw [ih rfl (by omega) (by rw [List.length_set]; exact hlen) m]
    rw [hc i, user_cpy_snd_true]
    by_cases h1 : i + 1 - 1 ≤ m ∧ m + 1 < n
    · rw [if_pos h1, if_pos (⟨by omega, h1.2⟩ : i - 1 ≤ m ∧ m + 1 < n)]
      rw [getD_set_ne _ _ _ _ (by omega)]
    · rw [if_neg h1]
      by_cases h2 : i - 1 = m
      · rw [← h2]
        rw [getD_set_self _ _ _ (by omega)]
        have h3 : i - 1 + 1 = i := by omega
        rw [h3]
        rw [if_pos (⟨le_rfl, by omega⟩ : i - 1 ≤ i - 1 ∧ i < n)]
      · rw [getD_set_ne _ _ _ _ h2]
        rw [if_neg (by omega)]
  | case3 arr i found h hf hm ih =>
    intro hfound
    exact absurd hfound hf
  | case4 arr i found h hf hm ih =>
    intro hfound
    exact absurd hfound hf
  | case5 arr i found h =>
    intro _ hi hlen m
    rw [removeLoop, dif_neg h]
    rw [if_neg (by omega)]

/-- `userTable_remove` on a table none of whose scanned slots matches:
`ERR_NOT_FOUND`, table untouched. -/
theorem userTable_remove_absent (t : tUserTable) (u : tUser) (cpyOk : Nat → Bool)
    (shrinkOk : Bool)
    (h : ∀ j, j < t.size → (t.elements.getD j junkUser).username ≠ u.username) :
    userTable_remove t u cpyOk shrinkOk = (tError.ERR_NOT_FOUND, t) := by
  have hloop := removeLoop_no_match u.username cpyOk t.size t.elements 0 false rfl
    (fun j _ hj => h j hj)
  rw [userTable_remove, hloop]
  simp only [Option.isSome_none, Bool.false_eq_true, if_false]

/-- `userTable_remove` on a valid table whose first matching slot is `k`,
with every allocation succeeding: returns `OK` and compacts the array,
each survivor past `k` re-initialized from its string fields. -/
theorem userTable_remove_success (t : tUserTable) (u : tUser)
    (hval : t.size = t.elements.length) (k : Nat) (hk : k < t.size)
    (hmatch : (t.elements.getD k junkUser).username = u.username)
    (hfirst : ∀ j, j < k → (t.elements.getD j junkUser).username ≠ u.username) :
    userTable_remove t u (fun _ => true) true =
      (tError.OK,
        { size := t.size - 1,
          elements := t.elements.take k ++ (t.elements.drop (k + 1)).map strCpyUser }) := by
  have hskip := removeLoop_to_first_match u.username (fun _ => true) t.size k hk
    t.elements 0 false rfl (Nat.zero_le k) hmatch (fun j _ hj => hfirst j hj)
  have hfst : (removeLoop u.username (fun _ => true) t.size t.elements 0 false).1 = none :=
    removeLoop_fst_none _ _ _ _ _ _
  have hflag : (removeLoop u.username (fun _ => true) t.size t.elements 0 false).2.1 = true := by
    rw [hskip]
    exact removeLoop_flag_true _ _ _ _ _ _ rfl
  have hlen : (removeLoop u.username (fun _ => true) t.size t.elements 0 false).2.2.length =
      t.elements.length :=
    removeLoop_length _ _ _ _ _ _
  have hout : ∀ m, (removeLoop u.username (fun _ => true) t.size t.elements 0
      false).2.2.getD m junkUser =
      if k ≤ m ∧ m + 1 < t.size then strCpyUser (t.elements.getD (m + 1) junkUser)
      else t.elements.getD m junkUser := by
    intro m
    rw [hskip]
    have := removeLoop_shift u.username (fun _ => true) t.size (fun _ => rfl)
      t.elements (k + 1) true rfl (by omega) (le_of_eq hval) m
    simpa using this
  rw [userTable_remove, hfst]
  simp only [Option.isSome_none, Bool.false_eq_true, if_false]
  rw [hflag]
  simp only [if_true]
  by_cases hsz : t.size - 1 = 0
  · rw [if_pos hsz]
    have hk0 : k = 0 := by omega
    subst hk0
    have hdrop : t.elements.drop (0 + 1) = [] :=
      List.drop_of_length_le (by omega)
    rw [List.take_zero, hdrop]
    simp [hsz]
  · rw [if_neg hsz]
    have helems : (removeLoop u.username (fun _ => true) t.size t.elements 0
        false).2.2.take (t.size - 1) =
        t.elements.take k ++ (t.elements.drop (k + 1)).map strCpyUser := by
      apply List.ext_getElem?
      intro m
      by_cases hm : m < t.size - 1
      · rw [List.getElem?_take_of_lt hm]
        have hmlen : m < (removeLoop u.username (fun _ => true) t.size t.elements 0
            false).2.2.length := by omega
        rw [List.getElem?_eq_getElem hmlen]
        have hgetd : (removeLoop u.username (fun _ => true) t.size t.elements 0
            false).2.2[m] = (removeLoop u.username (fun _ => true) t.size t.elements 0
            false).2.2.getD m junkUser := (List.getD_eq_getElem _ _ hmlen).symm
        rw [hgetd, hout m]
        by_cases hmk : m < k
        · rw [if_neg (by omega)]
          rw [List.getElem?_append_left (by
            rw [List.length_take]
            omega)]
          rw [List.getElem?_take_of_lt hmk]
          rw [List.getElem?_eq_getElem (by omega)]
          rw [List.getD_eq_getElem _ _ (by omega)]
        · rw [if_pos (by omega)]
          rw [List.getElem?_append_right (by
            rw [List.length_take]
            omega)]
          rw [List.length_take]
          have hidx : m - min k t.elements.length = m - k := by omega
          rw [hidx, List.getElem?_map, List.getElem?_drop]
          have hidx2 : k + 1 + (m - k) = m + 1 := by omega
          rw [hidx2]
          rw [List.getElem?_eq_getElem (by omega)]
          rw [List.getD_eq_getElem _ _ (by omega)]
          rfl
      · rw [List.getElem?_eq_none (by
          rw [List.length_take]
          omega)]
        rw [List.getElem?_eq_none (by
          rw [List.length_append, List.length_take, List.length_map, List.length_drop]
          omega)]
    rw [helems]

/-- `userTable_find` misses exactly when no scanned element carries the
username. -/
theorem userTable_find_eq_none_iff (t : tUserTable) (s : String) :
    userTable_find t s = none ↔ ∀ v ∈ t.elements.take t.size, v.username ≠ s := by
  simp [userTable_find, List.find?_eq_none]

/-- `userTable_find` hits exactly when some scanned element carries the
username. -/
theorem userTable_find_isSome_iff (t : tUserTable) (s : String) :
    (userTable_find t s).isSome = true ↔ ∃ v ∈ t.elements.take t.size, v.username = s := by
  simp [userTable_find, List.find?_isSome]

/-- A username occurring in a list occurs at a first position. -/
theorem exists_first_match (l : List tUser) (s : String) (hex : ∃ v ∈ l, v.username = s) :
    ∃ k, k < l.length ∧ (l.getD k junkUser).username = s ∧
      ∀ j, j < k → (l.getD j junkUser).username ≠ s := by
  induction l with
  | nil => simp at hex
  | cons a rest ih =>
    by_cases ha : a.username = s
    · exact ⟨0, by simp, by simpa using ha, fun j hj => absurd hj (by omega)⟩
    · have hex' : ∃ v ∈ rest, v.username = s := by
        obtain ⟨v, hv, hvs⟩ := hex
        rcases List.mem_cons.mp hv with hva | hvr
        · exact absurd (hva ▸ hvs) ha
        · exact ⟨v, hvr, hvs⟩
      obtain ⟨k, hk, hkm, hkf⟩ := ih hex'
      refine ⟨k + 1, by simp; omega, by simpa using hkm, fun j hj => ?_⟩
      match j with
      | 0 => simpa using ha
      | j' + 1 =>
        rw [List.getD_cons_succ]
        exact hkf j' (by omega)

/-- Removal with a username that `userTable_find` misses returns
`ERR_NOT_FOUND` and leaves a valid table unchanged. -/
theorem userTable_remove_find_none (t : tUserTable) (u : tUser) (cpyOk : Nat → Bool)
    (shrinkOk : Bool) (hval : t.size = t.elements.length)
    (habs : userTable_find t u.username = none) :
    userTable_remove t u cpyOk shrinkOk = (tError.ERR_NOT_FOUND, t) := by
  have h := (userTable_find_eq_none_iff t u.username).mp habs
  apply userTable_remove_absent
  intro j hj
  have hj' : j < t.elements.length := by omega
  rw [List.getD_eq_getElem _ _ hj']
  apply h
  rw [hval, List.take_length]
  exact List.getElem_mem _

/-- Invariant of the allocation-successful executions: `size` equals the
element count and usernames are pairwise distinct. -/
theorem reachable_inv (t : tUserTable) (h : Reachable t) :
    t.size = t.elements.length ∧
    t.elements.Pairwise (fun a b => a.username ≠ b.username) := by
  induction h with
  | init => exact ⟨rfl, List.Pairwise.nil⟩
  | add t u ht ih =>
    obtain ⟨hval, hpw⟩ := ih
    by_cases hdup : (userTable_find t u.username).isSome = true
    · rw [userTable_add, if_pos hdup]
      exact ⟨hval, hpw⟩
    · have habs : userTable_find t u.username = none := by
        cases hfind : userTable_find t u.username with
        | none => rfl
        | some v => rw [hfind] at hdup; simp at hdup
      rw [userTable_add, habs]
      simp only [Option.isSome_none, Bool.false_eq_true, if_false, if_true]
      refine ⟨?_, ?_⟩
      · show t.size + 1 =
          (t.elements.take t.size ++ [(user_init u.username u.name u.mail true).2]).length
        rw [List.length_append, List.length_take]
        simp
        omega
      · show (t.elements.take t.size ++
          [(user_init u.username u.name u.mail true).2]).Pairwise
            (fun a b => a.username ≠ b.username)
        rw [hval, List.take_length, List.pairwise_append]
        refine ⟨hpw, List.pairwise_singleton _ _, ?_⟩
        intro a ha b hb
        rw [List.mem_singleton] at hb
        subst hb
        have hnone := (userTable_find_eq_none_iff t u.username).mp habs
        have ha' := hnone a (by rwa [hval, List.take_length])
        simpa [user_init] using ha'
  | remove t u ht ih =>
    obtain ⟨hval, hpw⟩ := ih
    by_cases hpres : (userTable_find t u.username).isSome = true
    · have hex : ∃ v ∈ t.elements, v.username = u.username := by
        have := (userTable_find_isSome_iff t u.username).mp hpres
        rwa [hval, List.take_length] at this
      obtain ⟨k, hk', hmatch, hfirst⟩ := exists_first_match t.elements u.username hex
      have hspec := userTable_remove_success t u hval k (by omega) hmatch hfirst
      rw [hspec]
      refine ⟨?_, ?_⟩
      · show t.size - 1 =
          (t.elements.take k ++ (t.elements.drop (k + 1)).map strCpyUser).length
        rw [List.length_append, List.length_take, List.length_map, List.length_drop]
        omega
      · show (t.elements.take k ++ (t.elements.drop (k + 1)).map strCpyUser).Pairwise
          (fun a b => a.username ≠ b.username)
        have hsub : List.Sublist (t.elements.take k ++ t.elements.drop (k + 1))
            t.elements := by
          rw [← List.eraseIdx_eq_take_drop_succ]
          exact List.eraseIdx_sublist t.elements k
        have hpw' := List.Pairwise.sublist hsub hpw
        have husers : (t.elements.take k ++ (t.elements.drop (k + 1)).map
            strCpyUser).map (fun v => v.username) =
            (t.elements.take k ++ t.elements.drop (k + 1)).map (fun v => v.username) := by
          simp only [List.map_append, List.map_map]
          rfl
        have h1 : List.Pairwise Ne ((t.elements.take k ++ (t.elements.drop
            (k + 1)).map strCpyUser).map (fun v => v.username)) := by
          rw [husers, List.pairwise_map]
          exact hpw'
        exact List.pairwise_map.mp h1
    · have habs : userTable_find t u.username = none := by
        cases hfind : userTable_find t u.username with
        | none => rfl
        | some v => rw [hfind] at hpres; simp at hpres
      rw [userTable_remove_find_none t u _ _ hval habs]
      exact ⟨hval, hpw⟩

/-- Claim C1 — counterexample: adding `uBob` (absent) to the one-element
table `tblA` with the storage growth failing returns `ERR_MEMORY_ERROR`
but leaves `size` at 2, not at its prior value 1: the source increments
`table->size` before the `realloc` and never rolls it back, so the table
is not left in its prior valid state. -/
theorem C1_counterexample :
    (userTable_add tblA uBob false true).1 = tError.ERR_MEMORY_ERROR ∧
    (userTable_add tblA uBob false true).2.size = 2 ∧ tblA.size = 1 := by
  refine ⟨?_, ?_, rfl⟩ <;> decide

/-- Claim C1 — amended: for every table and every user whose username is
not in the table, if the backing-storage growth in `add` fails, the call
returns `ERR_MEMORY_ERROR` with the table's `size` incremented to its
prior value plus one and the element storage overwritten with NULL (the
prior block is leaked), not in its prior valid state. -/
theorem C1_add_growth_failure (t : tUserTable) (u : tUser) (initOk : Bool)
    (habs : userTable_find t u.username = none) :
    userTable_add t u false initOk =
      (tError.ERR_MEMORY_ERROR, { size := t.size + 1, elements := [] }) := by
  rw [userTable_add, habs]
  simp only [Option.isSome_none, Bool.false_eq_true, if_false]

/-- Claim C1 — witness: the amended statement at `tblA` and `uBob`. -/
theorem C1_witness :
    userTable_find tblA uBob.username = none ∧
    userTable_add tblA uBob false true =
      (tError.ERR_MEMORY_ERROR, { size := tblA.size + 1, elements := [] }) :=
  ⟨by decide, C1_add_growth_failure tblA uBob true (by decide)⟩

/-- Claim C4 — the code, evaluated at the failing input: with an empty
favorites stack the counting loop never runs, and the max-scan compares
the all-zero counters against the uninitialized `maxOcurrences`.  When
that indeterminate value is negative (here -1) the first comparison
`0 > maxOcurrences` succeeds and the function returns genre 0, not the
`GENRE_NOT_FOUND` its own header comment promises; only a non-negative
indeterminate value (here 0) yields the documented sentinel. -/
theorem C4_empty_favorites_bug :
    user_getFavoriteGenre uNoFavs (-1) = GENRE_ACTION ∧
    user_getFavoriteGenre uNoFavs 0 = GENRE_NOT_FOUND ∧
    GENRE_ACTION ≠ GENRE_NOT_FOUND := by
  refine ⟨?_, ?_, ?_⟩ <;> decide

/-- Claim C5 — counterexample: `uTie`'s favorites have stack-pop order
genre 3 then genre 1, one occurrence each; the claimed tie-break ("first
genre reaching the maximum count, in stack-pop order") predicts genre 3,
but the max-scan iterates over genre indices 0..7, so (with the
uninitialized maximum read as -1) the code returns genre 1. -/
theorem C5_counterexample :
    user_getFavoriteGenre uTie (-1) = 1 ∧ (1 : tGenre) ≠ 3 := by
  refine ⟨?_, ?_⟩ <;> decide

/-- Claim C6: removing a user whose username is absent from a valid table
returns `ERR_NOT_FOUND` and leaves the table unchanged, whatever the
allocation outcomes. -/
theorem C6_remove_absent (t : tUserTable) (u : tUser) (cpyOk : Nat → Bool)
    (shrinkOk : Bool) (hval : t.size = t.elements.length)
    (habs : userTable_find t u.username = none) :
    userTable_remove t u cpyOk shrinkOk = (tError.ERR_NOT_FOUND, t) :=
  userTable_remove_find_none t u cpyOk shrinkOk hval habs

/-- Claim C6 — witness: removing the absent `uBob` from `tblA`. -/
theorem C6_witness :
    tblA.size = tblA.elements.length ∧
    userTable_find tblA uBob.username = none ∧
    userTable_remove tblA uBob (fun _ => true) true = (tError.ERR_NOT_FOUND, tblA) :=
  ⟨rfl, by decide, C6_remove_absent tblA uBob (fun _ => true) true rfl (by decide)⟩

/-- Claim C3: adding a user with a fresh username to a valid table (all
allocations succeeding) returns `OK`, and a subsequent `find` with that
username returns an element that is `user_equals`-equal to the user
added. -/
theorem C3_add_then_find (t : tUserTable) (u : tUser)
    (hval : t.size = t.elements.length)
    (habs : userTable_find t u.username = none) :
    (userTable_add t u true true).1 = tError.OK ∧
    ∃ v, userTable_find (userTable_add t u true true).2 u.username = some v ∧
      user_equals v u = true := by
  have htake : t.elements.take t.size = t.elements := by
    rw [hval, List.take_length]
  rw [userTable_add, habs]
  simp only [Option.isSome_none, Bool.false_eq_true, if_false, if_true]
  refine ⟨by trivial, (user_init u.username u.name u.mail true).2, ?_, by
    simp [user_init, user_equals]⟩
  rw [userTable_find]
  simp only [htake]
  have hlen : (t.elements ++ [(user_init u.username u.name u.mail true).2]).length =
      t.size + 1 := by
    rw [List.length_append, ← hval]
    rfl
  rw [List.take_of_length_le (le_of_eq hlen)]
  rw [List.find?_append]
  have hnone : t.elements.find? (fun v => v.username == u.username) = none := by
    rw [userTable_find, htake] at habs
    exact habs
  rw [hnone, Option.none_or, List.find?_singleton]
  simp [user_init]

/-- Claim C3 — witness: adding `uBob` to `tblA` and finding it again. -/
theorem C3_witness :
    tblA.size = tblA.elements.length ∧
    userTable_find tblA uBob.username = none ∧
    ((userTable_add tblA uBob true true).1 = tError.OK ∧
      ∃ v, userTable_find (userTable_add tblA uBob true true).2 uBob.username = some v ∧
        user_equals v uBob = true) :=
  ⟨rfl, by decide, C3_add_then_find tblA uBob rfl (by decide)⟩

/-- Claim C7: removing a present username from a valid, duplicate-free
table (all allocations succeeding) returns `OK`, shrinks the table by
exactly one, makes a subsequent `find` of that username miss, and keeps
the surviving elements in their former relative order with their
`username`, `name` and `mail` strings preserved. -/
theorem C7_remove_present (t : tUserTable) (u : tUser)
    (hval : t.size = t.elements.length)
    (hdist : t.elements.Pairwise (fun a b => a.username ≠ b.username))
    (hpres : (userTable_find t u.username).isSome = true) :
    (userTable_remove t u (fun _ => true) true).1 = tError.OK ∧
    (userTable_remove t u (fun _ => true) true).2.size + 1 = t.size ∧
    userTable_find (userTable_remove t u (fun _ => true) true).2 u.username = none ∧
    (userTable_remove t u (fun _ => true) true).2.elements.map userStrings =
      (t.elements.filter (fun v => !(v.username == u.username))).map userStrings := by
  have hex : ∃ v ∈ t.elements, v.username = u.username := by
    have := (userTable_find_isSome_iff t u.username).mp hpres
    rwa [hval, List.take_length] at this
  obtain ⟨k, hk', hmatch, hfirst⟩ := exists_first_match t.elements u.username hex
  have hk : k < t.size := by omega
  have hkel : (t.elements[k]).username = u.username := by
    rwa [List.getD_eq_getElem _ _ hk'] at hmatch
  have hall : ∀ j (hj : j < t.elements.length), j ≠ k →
      (t.elements[j]).username ≠ u.username := by
    intro j hj hjk
    rcases Nat.lt_or_ge j k with hlt | hge
    · have := hfirst j hlt
      rwa [List.getD_eq_getElem _ _ hj] at this
    · have hkj : k < j := by omega
      have hpw := List.pairwise_iff_getElem.mp hdist k j hk' hj hkj
      intro hcontra
      exact hpw (hkel.trans hcontra.symm)
  have hspec := userTable_remove_success t u hval k hk hmatch hfirst
  rw [hspec]
  have hElen : (t.elements.take k ++ (t.elements.drop (k + 1)).map strCpyUser).length =
      t.size - 1 := by
    rw [List.length_append, List.length_take, List.length_map, List.length_drop]
    omega
  refine ⟨rfl, by simp; omega, ?_, ?_⟩
  · rw [userTable_find_eq_none_iff]
    intro v hv
    simp only at hv
    rw [List.take_of_length_le (le_of_eq hElen)] at hv
    rcases List.mem_append.mp hv with hvt | hvd
    · obtain ⟨i, hi, rfl⟩ := List.getElem_of_mem hvt
      have hik : i < k := by
        have := hi
        rw [List.length_take] at this
        omega
      rw [List.getElem_take]
      have := hfirst i hik
      rwa [List.getD_eq_getElem _ _ (by omega)] at this
    · obtain ⟨w, hw, rfl⟩ := List.mem_map.mp hvd
      obtain ⟨i, hi, rfl⟩ := List.getElem_of_mem hw
      have hilen : k + 1 + i < t.elements.length := by
        have := hi
        rw [List.length_drop] at this
        omega
      rw [List.getElem_drop]
      show (t.elements[k + 1 + i]).username ≠ u.username
      exact hall (k + 1 + i) hilen (by omega)
  · have hfilter : t.elements.filter (fun v => !(v.username == u.username)) =
        t.elements.take k ++ t.elements.drop (k + 1) := by
      conv_lhs => rw [← List.take_append_drop k t.elements,
        List.drop_eq_getElem_cons hk']
      rw [List.filter_append, List.filter_cons]
      rw [if_neg (by simp [hkel])]
      have h1 : (t.elements.take k).filter (fun v => !(v.username == u.username)) =
          t.elements.take k := by
        rw [List.filter_eq_self]
        intro v hv
        obtain ⟨i, hi, rfl⟩ := List.getElem_of_mem hv
        have hik : i < k := by
          have := hi
          rw [List.length_take] at this
          omega
        rw [List.getElem_take]
        have := hfirst i hik
        rw [List.getD_eq_getElem _ _ (by omega)] at this
        simpa using this
      have h2 : (t.elements.drop (k + 1)).filter (fun v => !(v.username == u.username)) =
          t.elements.drop (k + 1) := by
        rw [List.filter_eq_self]
        intro v hv
        obtain ⟨i, hi, rfl⟩ := List.getElem_of_mem hv
        have hilen : k + 1 + i < t.elements.length := by
          have := hi
          rw [List.length_drop] at this
          omega
        rw [List.getElem_drop]
        have := hall (k + 1 + i) hilen (by omega)
        simpa using this
      rw [h1, h2]
    rw [hfilter]
    simp only [List.map_append, List.map_map]
    rfl

/-- Claim C7 — witness: removing `uBob` from the three-element `tblABC`. -/
theorem C7_witness :
    tblABC.size = tblABC.elements.length ∧
    tblABC.elements.Pairwise (fun a b => a.username ≠ b.username) ∧
    (userTable_find tblABC uBob.username).isSome = true ∧
    ((userTable_remove tblABC uBob (fun _ => true) true).1 = tError.OK ∧
      (userTable_remove tblABC uBob (fun _ => true) true).2.size + 1 = tblABC.size ∧
      userTable_find (userTable_remove tblABC uBob (fun _ => true) true).2
        uBob.username = none ∧
      (userTable_remove tblABC uBob (fun _ => true) true).2.elements.map userStrings =
        (tblABC.elements.filter (fun v => !(v.username == uBob.username))).map
          userStrings) :=
  ⟨rfl, by decide, by decide,
    C7_remove_present tblABC uBob rfl (by decide) (by decide)⟩

/-- The capitalization loop equals the spec-side re-casing: the
`startOfWord` flag entering a position is set exactly when nothing or a
blank precedes the position. -/
theorem capLoop_spec : ∀ (l : List Char) (prev : Option Char),
    capLoop l (wordStart prev) = specRecase prev l := by
  intro l
  induction l with
  | nil => intro prev; rfl
  | cons c rest ih =>
    intro prev
    rw [capLoop, specRecase]
    by_cases hb : isblank c
    · rw [if_pos hb, if_pos hb]
      have h1 : capLoop rest true = specRecase (some c) rest := by
        have h2 := ih (some c)
        rwa [show wordStart (some c) = isblank c from rfl, hb] at h2
      rw [h1]
    · have hb' : isblank c = false := by simpa using hb
      rw [if_neg hb, if_neg hb]
      have h1 : capLoop rest false = specRecase (some c) rest := by
        have h2 := ih (some c)
        rwa [show wordStart (some c) = isblank c from rfl, hb'] at h2
      rw [h1]

/-- The backwards blank-scan of `user_trimCapitalizeName` stops at `k`
when position `k` is non-blank and positions `k + 1` to `k + d` are
blank. -/
theorem scanBackIdx_spec (s : List Char) :
    ∀ (d k : Nat), isblank (s.getD k ' ') = false →
    (∀ j, k < j → j ≤ k + d → isblank (s.getD j ' ') = true) →
    scanBackIdx s (k + d) = k := by
  intro d
  induction d with
  | zero =>
    intro k hk _
    match k with
    | 0 => rfl
    | e + 1 =>
      show scanBackIdx s (e + 1) = e + 1
      rw [scanBackIdx]
      rw [if_neg (by rw [hk]; simp)]
  | succ d ih =>
    intro k hk hblank
    show scanBackIdx s (k + d + 1) = k
    rw [scanBackIdx]
    rw [if_pos (hblank (k + d + 1) (by omega) (by omega))]
    exact ih k hk (fun j hj1 hj2 => hblank j hj1 (by omega))

/-- The head of `dropWhile p` fails `p`. -/
theorem dropWhile_head_false {α : Type} (p : α → Bool) (l : List α) (x : α) (xs : List α)
    (heq : l.dropWhile p = x :: xs) : p x = false := by
  have h := List.head?_dropWhile_not p l
  rw [heq] at h
  simpa using h

/-- The index-arithmetic trim of the source equals the spec-side trim —
drop the leading blanks, cut after the last non-blank — whenever a
non-blank character exists. -/
theorem trim_eq (s : List Char) (h : ∃ c ∈ s, isblank c = false) :
    (s.drop ((s.takeWhile isblank).length)).take
      (scanBackIdx s (s.length - 1) + 1 - (s.takeWhile isblank).length) =
      trimBlanks s := by
  rw [trimBlanks]
  have hsplit : s.takeWhile isblank ++ s.dropWhile isblank = s := by simp
  have hrne : s.dropWhile isblank ≠ [] := by
    intro hnil
    obtain ⟨c, hc, hcb⟩ := h
    have hall := List.dropWhile_eq_nil_iff.mp hnil
    rw [hall c hc] at hcb
    cases hcb
  have hhead1 := List.head_dropWhile_not isblank s hrne
  have hcrne : (s.dropWhile isblank).reverse.dropWhile isblank ≠ [] := by
    intro hnil
    have hall := List.dropWhile_eq_nil_iff.mp hnil
    have hmem : (s.dropWhile isblank).head hrne ∈ (s.dropWhile isblank).reverse := by
      rw [List.mem_reverse]
      exact List.head_mem hrne
    have hcontra := hall _ hmem
    rw [hcontra] at hhead1
    simp at hhead1
  have hhead2 := List.head_dropWhile_not isblank (s.dropWhile isblank).reverse hcrne
  have hsplit2 : (s.dropWhile isblank).reverse.takeWhile isblank ++
      (s.dropWhile isblank).reverse.dropWhile isblank =
      (s.dropWhile isblank).reverse := by simp
  have hbmem : ∀ x ∈ (s.dropWhile isblank).reverse.takeWhile isblank,
      isblank x = true := fun x hx => List.mem_takeWhile_imp hx
  set a := s.takeWhile isblank with ha
  set r := s.dropWhile isblank with hr
  set b := r.reverse.takeWhile isblank with hb2
  set cr := r.reverse.dropWhile isblank with hcr
  have hrdecomp : r = cr.reverse ++ b.reverse := by
    have h1 : (b ++ cr).reverse = r.reverse.reverse := by rw [hsplit2]
    rw [List.reverse_append, List.reverse_reverse] at h1
    exact h1.symm
  have hsdecomp : s = a ++ (cr.reverse ++ b.reverse) := by rw [← hrdecomp, hsplit]
  have hcrpos : 0 < cr.length := List.length_pos.mpr hcrne
  have hlast : isblank (cr.reverse.getD (cr.length - 1) ' ') = false := by
    obtain ⟨x, xs, hx⟩ := List.exists_cons_of_ne_nil hcrne
    have hxfalse : isblank x = false :=
      dropWhile_head_false isblank r.reverse x xs (by rw [← hcr, hx])
    rw [hx, List.reverse_cons]
    rw [List.getD_append_right _ _ _ _ (by simp)]
    simp only [List.length_cons, List.length_reverse]
    have hidx : xs.length + 1 - 1 - xs.length = 0 := by omega
    rw [hidx]
    simpa using hxfalse
  have hscan : scanBackIdx s (s.length - 1) = a.length + cr.length - 1 := by
    have hd : s.length - 1 = (a.length + cr.length - 1) + b.length := by
      rw [hsdecomp]
      simp only [List.length_append, List.length_reverse]
      omega
    rw [hd]
    apply scanBackIdx_spec
    · rw [hsdecomp]
      rw [List.getD_append_right _ _ _ _ (by omega)]
      have hidx : a.length + cr.length - 1 - a.length = cr.length - 1 := by omega
      rw [hidx]
      rw [List.getD_append _ _ _ _ (by simp; omega)]
      exact hlast
    · intro j hj1 hj2
      rw [hsdecomp]
      rw [List.getD_append_right _ _ _ _ (by omega)]
      rw [List.getD_append_right _ _ _ _ (by simp; omega)]
      have hjlt : j - a.length - cr.reverse.length < b.reverse.length := by
        simp only [List.length_reverse]
        omega
      rw [List.getD_eq_getElem _ _ hjlt]
      apply hbmem
      rw [← List.mem_reverse]
      exact List.getElem_mem _
  have hdropa : s.drop a.length = cr.reverse ++ b.reverse := by
    conv_lhs => rw [hsdecomp]
    exact List.drop_left a _
  rw [hscan, hdropa]
  have hidx2 : a.length + cr.length - 1 + 1 - a.length = cr.length := by omega
  rw [hidx2]
  exact List.take_left' (by simp)

/-- The counting loop adds to each counter the number of favorites with
that genre. -/
theorem favGenreLoop_counts (favs : List tFavorite) (counts : Nat → Int) (g : tGenre) :
    (favGenreLoop favs counts g).1 = fun j => counts j + (countOcc favs j : Int) := by
  induction favs generalizing counts g with
  | nil =>
    funext j
    simp [favGenreLoop, countOcc]
  | cons f rest ih =>
    funext j
    rw [favGenreLoop, ih]
    simp only [countOcc, List.filter_cons]
    by_cases hj : j = f.film.series.genre
    · rw [if_pos hj, if_pos (by simp [hj])]
      simp only [List.length_cons, countOcc]
      push_cast
      ring
    · rw [if_neg hj, if_neg (by simp [Ne.symm hj])]

/-- The max-scan loop started from the uninitialized maximum read as `-1`
computes, over nonnegative counters, the least index attaining the
maximum counter value among indices below `n`. -/
theorem favMaxLoop_argmax (counts : Nat → Int) (hpos : ∀ j, 0 ≤ counts j)
    (g0 : tGenre) :
    ∀ (n : Nat), 1 ≤ n →
      counts ((List.range n).foldl (favMaxStep counts) (g0, -1)).1 =
        ((List.range n).foldl (favMaxStep counts) (g0, -1)).2 ∧
      ((List.range n).foldl (favMaxStep counts) (g0, -1)).1 < n ∧
      (∀ j, j < n → counts j ≤ ((List.range n).foldl (favMaxStep counts) (g0, -1)).2) ∧
      (∀ j, j < ((List.range n).foldl (favMaxStep counts) (g0, -1)).1 →
        counts j < ((List.range n).foldl (favMaxStep counts) (g0, -1)).2) := by
  intro n
  induction n with
  | zero =>
    intro hn
    exact absurd hn (by omega)
  | succ n ih =>
    intro _
    by_cases hn : n = 0
    · subst hn
      have h0 : (0 : Int) ≤ counts 0 := hpos 0
      rw [List.range_succ, List.range_zero, List.nil_append, List.foldl_cons,
        List.foldl_nil]
      simp only [favMaxStep]
      rw [if_pos (by show counts 0 > -1; omega)]
      refine ⟨rfl, Nat.lt_succ_self 0, ?_, ?_⟩
      · intro j hj
        have hj0 : j = 0 := by omega
        subst hj0
        exact le_rfl
      · intro j hj
        have hj' : j < 0 := hj
        exact absurd hj' (Nat.not_lt_zero j)
    · obtain ⟨hc, hlt, hmax, hfirst⟩ := ih (by omega)
      rw [List.range_succ, List.foldl_append, List.foldl_cons, List.foldl_nil]
      simp only [favMaxStep]
      by_cases hgt : counts n > ((List.range n).foldl (favMaxStep counts) (g0, -1)).2
      · rw [if_pos hgt]
        refine ⟨rfl, Nat.lt_succ_self n, ?_, ?_⟩
        · intro j hj
          rcases Nat.lt_or_ge j n with hjn | hjn
          · exact le_trans (hmax j hjn) (le_of_lt hgt)
          · have : j = n := by omega
            subst this
            exact le_rfl
        · intro j hj
          exact lt_of_le_of_lt (hmax j hj) hgt
      · rw [if_neg hgt]
        refine ⟨hc, Nat.lt_succ_of_lt hlt, ?_, hfirst⟩
        intro j hj
        rcases Nat.lt_or_ge j n with hjn | hjn
        · exact hmax j hjn
        · have : j = n := by omega
          subst this
          omega

/-- Claim C5 — amended: for every user with a non-empty favorites stack
of valid genres (indices below 8), and with the uninitialized
`maxOcurrences` read as `-1` (any value below every counter behaves the
same), `getFavoriteGenre` returns a genre with the greatest occurrence
count among the favorites; when several genres tie for the maximum, the
winner is the tied genre with the smallest genre index — the max-scan
iterates over genre indices with a strictly-greater-than comparison — and
not in general the first genre reaching the maximum in stack-pop order.
Favorites pushed in order Drama, Action, Action still yield Action (see
the witness). -/
theorem C5_max_genre (u : tUser) (hne : u.favorites ≠ [])
    (hvalid : ∀ f ∈ u.favorites, f.film.series.genre < 8) :
    user_getFavoriteGenre u (-1) < 8 ∧
    (∀ j, j < 8 →
      countOcc u.favorites j ≤ countOcc u.favorites (user_getFavoriteGenre u (-1))) ∧
    (∀ j, j < user_getFavoriteGenre u (-1) →
      countOcc u.favorites j < countOcc u.favorites (user_getFavoriteGenre u (-1))) := by
  have hcounts : (favGenreLoop u.favorites (fun _ => 0) GENRE_NOT_FOUND).1 =
      fun j => (countOcc u.favorites j : Int) := by
    rw [favGenreLoop_counts]
    funext j
    simp
  have hdef : user_getFavoriteGenre u (-1) =
      ((List.range 8).foldl (favMaxStep (fun j => (countOcc u.favorites j : Int)))
        ((favGenreLoop u.favorites (fun _ => 0) GENRE_NOT_FOUND).2, -1)).1 := by
    rw [user_getFavoriteGenre]
    simp only [favoriteStack_duplicate, favMaxLoop, hcounts]
  have hmain := favMaxLoop_argmax (fun j => (countOcc u.favorites j : Int))
    (fun j => Int.ofNat_nonneg _)
    ((favGenreLoop u.favorites (fun _ => 0) GENRE_NOT_FOUND).2) 8 (by omega)
  obtain ⟨hc, hlt, hmax, hfirst⟩ := hmain
  rw [hdef]
  refine ⟨hlt, ?_, ?_⟩
  · intro j hj
    have hle := hmax j hj
    rw [← hc] at hle
    simp only [] at hle
    exact_mod_cast hle
  · intro j hj
    have hlt' := hfirst j hj
    rw [← hc] at hlt'
    simp only [] at hlt'
    exact_mod_cast hlt'

/-- Claim C5 — witness: the amended statement at `uDramaActionAction`,
whose favorites were pushed Drama, Action, Action; the returned genre is
Action, the clear majority. -/
theorem C5_witness :
    uDramaActionAction.favorites ≠ [] ∧
    (∀ f ∈ uDramaActionAction.favorites, f.film.series.genre < 8) ∧
    user_getFavoriteGenre uDramaActionAction (-1) = GENRE_ACTION ∧
    (user_getFavoriteGenre uDramaActionAction (-1) < 8 ∧
      (∀ j, j < 8 → countOcc uDramaActionAction.favorites j ≤
        countOcc uDramaActionAction.favorites
          (user_getFavoriteGenre uDramaActionAction (-1))) ∧
      (∀ j, j < user_getFavoriteGenre uDramaActionAction (-1) →
        countOcc uDramaActionAction.favorites j <
          countOcc uDramaActionAction.favorites
            (user_getFavoriteGenre uDramaActionAction (-1)))) :=
  ⟨by decide, by decide, by decide,
    C5_max_genre uDramaActionAction (by decide) (by decide)⟩

/-- Claim C2: in every table reachable from `userTable_init` by `add` and
`remove` operations (allocations succeeding), usernames are pairwise
distinct; and `add` of an already-present username returns
`ERR_DUPLICATED` and leaves the table — in particular its `size` —
unchanged, whatever the allocation outcomes. -/
theorem C2_unique_usernames :
    (∀ t, Reachable t → t.elements.Pairwise (fun a b => a.username ≠ b.username)) ∧
    (∀ (t : tUserTable) (u : tUser) (growOk initOk : Bool),
      (userTable_find t u.username).isSome = true →
      userTable_add t u growOk initOk = (tError.ERR_DUPLICATED, t)) := by
  constructor
  · intro t ht
    exact (reachable_inv t ht).2
  · intro t u growOk initOk hdup
    rw [userTable_add, if_pos hdup]

/-- Claim C2 — witness: the table built by adding `uAlice` then `uBob` is
reachable and duplicate-free, and re-adding `uAlice` to `tblA` is
rejected without change. -/
theorem C2_witness :
    (userTable_add (userTable_add userTable_init uAlice true true).2 uBob true
      true).2.elements.Pairwise (fun a b => a.username ≠ b.username) ∧
    (userTable_find tblA uAlice.username).isSome = true ∧
    userTable_add tblA uAlice true true = (tError.ERR_DUPLICATED, tblA) :=
  ⟨C2_unique_usernames.1 _ (Reachable.add _ uBob (Reachable.add _ uAlice Reachable.init)),
    by decide, C2_unique_usernames.2 tblA uAlice true true (by decide)⟩

/-- Claim C9: on valid tables, `userTable_equals` returns `true` exactly
when the two tables have the same size and every username of the second
occurs in the first; element order and the `name`, `mail` and `favorites`
fields play no role. -/
theorem C9_tablesEqual_iff (t1 t2 : tUserTable)
    (h1 : t1.size = t1.elements.length) (h2 : t2.size = t2.elements.length) :
    userTable_equals t1 t2 = true ↔
      (t1.size = t2.size ∧
        ∀ u ∈ t2.elements, ∃ v ∈ t1.elements, v.username = u.username) := by
  rw [userTable_equals]
  by_cases hsz : t1.size = t2.size
  · rw [if_neg (fun hc => hc hsz)]
    rw [List.all_eq_true]
    constructor
    · intro hall
      refine ⟨hsz, fun u hu => ?_⟩
      have hu' : u ∈ t2.elements.take t1.size := by
        rwa [hsz, h2, List.take_length]
      have := hall u hu'
      rw [userTable_find_isSome_iff, h1, List.take_length] at this
      exact this
    · rintro ⟨hsz', hforall⟩ x hx
      rw [hsz, h2, List.take_length] at hx
      obtain ⟨v, hv, hvs⟩ := hforall x hx
      rw [userTable_find_isSome_iff, h1, List.take_length]
      exact ⟨v, hv, hvs⟩
  · rw [if_pos hsz]
    simp only [Bool.false_eq_true, false_iff]
    rintro ⟨hsz', _⟩
    exact hsz hsz'

/-- Claim C9 — witness: `tblAB` and `tblBA2` share usernames in opposite
order with different names and mails, and still compare equal. -/
theorem C9_witness : userTable_equals tblAB tblBA2 = true :=
  (C9_tablesEqual_iff tblAB tblBA2 rfl rfl).mpr ⟨rfl, by decide⟩

/-- Claim C8: on a name with at least one non-blank character (and the
temporary buffer allocation succeeding), `user_trimCapitalizeName`
returns `OK` and rewrites the name to its spec-side normal form: leading
and trailing blanks stripped, interior blanks kept in place, and every
blank-delimited token re-cased to first letter upper, remainder lower. -/
theorem C8_trimCapitalizeName (u : tUser) (h : ∃ c ∈ u.name.data, isblank c = false) :
    user_trimCapitalizeName u true =
      (tError.OK, { u with name := String.mk (specTrimCapitalize u.name.data) }) := by
  have htrim := trim_eq u.name.data h
  have hcap : capLoop (trimBlanks u.name.data) true =
      specRecase none (trimBlanks u.name.data) :=
    capLoop_spec (trimBlanks u.name.data) none
  show (tError.OK, { u with name := String.mk (capLoop ((u.name.data.drop
      ((u.name.data.takeWhile isblank).length)).take
      (scanBackIdx u.name.data (u.name.data.length - 1) + 1 -
        (u.name.data.takeWhile isblank).length)) true) }) =
    (tError.OK, { u with name := String.mk (specTrimCapitalize u.name.data) })
  rw [htrim, hcap]
  rfl

/-- Claim C8 — witness: `"  john   DOE "` normalizes to `"John   Doe"` —
edges trimmed, the interior three-blank run preserved, both tokens
re-cased. -/
theorem C8_witness :
    (∃ c ∈ uJohnDoe.name.data, isblank c = false) ∧
    user_trimCapitalizeName uJohnDoe true =
      (tError.OK, { uJohnDoe with name := "John   Doe" }) := by
  constructor
  · decide
  · have hmain := C8_trimCapitalizeName uJohnDoe (by decide)
    rw [hmain]
    decide

/-- Claim C10: `user_cpy` returns `OK` unconditionally — the return code
of the inner `user_init` is discarded — and consequently the
`ERR_MEMORY_ERROR` branch of the shifting loop of `userTable_remove` is
unreachable: the loop never reports a memory error, whatever the
allocation outcomes. -/
theorem C10_cpy_always_ok :
    (∀ (dst src : tUser) (allocOk : Bool), (user_cpy dst src allocOk).1 = tError.OK) ∧
    (∀ (target : String) (cpyOk : Nat → Bool) (n : Nat) (arr : List tUser) (i : Nat)
      (found : Bool), (removeLoop target cpyOk n arr i found).1 = none) :=
  ⟨user_cpy_fst, removeLoop_fst_none⟩
